import Mathlib

/-!
Shallow embedding of the multivariate-analysis orchestration code in
`hyperspy/learn/mva.py` (decomposition, blind source separation and
clustering engines plus the `LearningResults` store), together with
verification of the specification claims about it.

Conventions used throughout:
* numpy float arrays whose entries stay rational in the properties of
  interest are embedded as `List ℚ` / `List (List ℚ)`; values produced by
  `np.sqrt` / `np.log` are embedded in `ℝ`;
* Python `range(a, b)` is embedded as `natsFrom a (b - a)`;
* a numpy boolean mask is a `List Bool`; `none` stands for a missing mask
  (the code turns it into the identity selector `slice(None)`);
* Lean's convention `x / 0 = 0` coincides with the effect of the source's
  `np.nan_to_num` on the `0/0 → nan → 0` results it is applied to, which is
  the only degenerate case reachable under the source's own guards.
-/

/-! ## Generic helpers -/

/-- `natsFrom s n` is Python `range(s, s + n)`. -/
def natsFrom : ℕ → ℕ → List ℕ
  | _, 0 => []
  | s, n + 1 => s :: natsFrom (s + 1) n

/-- Element access with numpy's default value 0 (indices are in range at
every use site of the embedding). -/
def getQ (l : List ℚ) (i : ℕ) : ℚ := l.getD i 0

/-- Python list/array indexing including the negative-index wraparound:
`l[-1]` is the last element. -/
def pyGet (l : List ℚ) (i : ℤ) : ℚ :=
  if i < 0 then l.getD (l.length - (-i).toNat) 0 else l.getD i.toNat 0

/-- First element of a list of naturals satisfying `p` (embeds a Python
`for`-loop that `break`s at the first hit). -/
def findFirst (p : ℕ → Bool) : List ℕ → Option ℕ
  | [] => none
  | a :: l => if p a then some a else findFirst p l

theorem natsFrom_length (s n : ℕ) : (natsFrom s n).length = n := by
  induction n generalizing s with
  | zero => rfl
  | succ n ih => simp [natsFrom, ih]

theorem mem_natsFrom {s n i : ℕ} : i ∈ natsFrom s n ↔ s ≤ i ∧ i < s + n := by
  induction n generalizing s with
  | zero => simp [natsFrom]
  | succ n ih =>
    simp [natsFrom, ih]
    omega

theorem findFirst_eq_none {p : ℕ → Bool} {s n : ℕ}
    (h : ∀ i, s ≤ i → i < s + n → p i = false) :
    findFirst p (natsFrom s n) = none := by
  induction n generalizing s with
  | zero => rfl
  | succ n ih =>
    have hs : p s = false := h s le_rfl (by omega)
    simp [natsFrom, findFirst, hs]
    exact ih fun i h1 h2 => h i (by omega) (by omega)

theorem findFirst_eq_some {p : ℕ → Bool} {s n i : ℕ}
    (h1 : s ≤ i) (h2 : i < s + n) (hp : p i = true)
    (hmin : ∀ j, s ≤ j → j < i → p j = false) :
    findFirst p (natsFrom s n) = some i := by
  induction n generalizing s with
  | zero => omega
  | succ n ih =>
    by_cases hsi : s = i
    · subst hsi
      simp [natsFrom, findFirst, hp]
    · have hs : p s = false := hmin s le_rfl (by omega)
      simp [natsFrom, findFirst, hs]
      exact ih (by omega) (by omega) fun j hj1 hj2 => hmin j (by omega) hj2

/-! ## Claim C1 — guaranteed cleanup of the top-level engine operations

The engine operations `MVA.decomposition` and `MVA.cluster_analysis` share
the shape "backup the data, unfold, run the body, then a `finally` block
that folds back, commits results and restores the backup".  We embed the
control skeleton over an abstract data type `α`; the algorithm dispatch and
post-treatment are abstracted into an `Except` outcome, which captures both
the normal return and an exception raised inside the `try` body. -/

/-- The mutable per-signal state touched by the pre/post-treatment code:
the data buffer, the fold/unfold state of the axes, and the
`_data_before_treatments` backup attribute (`none` when absent). -/
structure SigState (α : Type) where
  data : α
  unfolded : Bool
  backup : Option α
deriving DecidableEq

/-- `signal.unfold()`: returns whether it actually unfolded (False when the
signal was already flat), as the source stores in
`_unfolded4decomposition` / `_unfolded4clustering`. -/
def unfoldOp {α : Type} (s : SigState α) : Bool × SigState α :=
  if s.unfolded then (false, s) else (true, { s with unfolded := true })

/-- `signal.fold()`. -/
def foldOp {α : Type} (s : SigState α) : SigState α :=
  { s with unfolded := false }

/-- `MVA.undo_treatments`: restore the copied buffer and delete it.  (The
source raises `AttributeError` when no backup exists; the callers modelled
here only invoke it with the backup set.) -/
def undoTreatments {α : Type} (s : SigState α) : SigState α :=
  match s.backup with
  | some d => { s with data := d, backup := none }
  | none => s

/-- Exceptions raised by the algorithm dispatch / post-treatment body. -/
inductive DispatchErr
  | algorithmError
deriving DecidableEq

/-- Exceptions escaping `cluster_analysis`: either nothing (success) or the
`UnboundLocalError` raised by its `finally` block (which replaces the
original dispatch exception). -/
inductive ClusterErr
  | nameError
deriving DecidableEq

/-- Control skeleton of `MVA.decomposition` (mva.py lines 341-632): copy
backup, unfold, `try` (pre-treatments mutate the data, then dispatch and
post-treatment run — their outcome is the abstract `outcome`), `finally`
(fold if unfolded, commit the target record, restore the copy).  Every name
the `finally` block references is bound before the `try`, so the cleanup
always completes. -/
def decomposition_shell {α β : Type} (copy : Bool) (pretreat : α → α)
    (outcome : Except DispatchErr β) (s : SigState α) :
    Except DispatchErr β × SigState α :=
  let s1 := if copy then { s with backup := some s.data } else s
  let r := unfoldOp s1
  let s3 := { r.2 with data := pretreat r.2.data }
  -- finally: fold when we unfolded, commit, restore the copied buffer
  let s4 := if r.1 then foldOp s3 else s3
  let s5 := if copy then undoTreatments s4 else s4
  (outcome, s5)

/-- Control skeleton of `MVA.cluster_analysis` (mva.py lines 2021-2086):
the backup is unconditional, scaling unfolds the signal, then clustering
runs.  Its `finally` block begins with
`target.cluster_membership = sorted_membership`, but `sorted_membership`
is only assigned by the last statement of the `try` body; when the body
raises earlier, that first `finally` statement raises `UnboundLocalError`,
so the rest of the cleanup — `self.fold()` and `self.undo_treatments()` —
never runs and the new exception replaces the original one. -/
def cluster_analysis_shell {α β : Type} (outcome : Except DispatchErr β)
    (s : SigState α) : Except ClusterErr β × SigState α :=
  let s1 := { s with backup := some s.data }
  let r := unfoldOp s1
  match outcome with
  | Except.ok v =>
    -- finally completes: commit, fold when unfolded, undo treatments
    let s3 := if r.1 then foldOp r.2 else r.2
    (Except.ok v, undoTreatments s3)
  | Except.error _ =>
    -- finally aborts on the unbound local; no fold, no restore
    (Except.error ClusterErr.nameError, r.2)

/-- Claim C1 (code bug): the spec promises that both `decomposition` and
`cluster_analysis` restore the pre-treatment state (fold back, restore the
copied buffer) on every exit path.  `decomposition` does (second
conjunct), but when the clustering dispatch raises, the `finally` block of
`cluster_analysis` itself raises `UnboundLocalError` on
`sorted_membership` before folding or restoring: starting folded with
data 5 and no backup, the state after the failed call is still unfolded
with the stale `_data_before_treatments` attribute set (first conjunct). -/
theorem C1_cluster_cleanup_skipped :
    cluster_analysis_shell (α := ℚ) (β := Unit)
        (Except.error DispatchErr.algorithmError) ⟨5, false, none⟩
      = (Except.error ClusterErr.nameError, ⟨5, true, some 5⟩)
    ∧ decomposition_shell (α := ℚ) (β := Unit) true (fun d => d + 1)
        (Except.error DispatchErr.algorithmError) ⟨5, false, none⟩
      = (Except.error DispatchErr.algorithmError, ⟨5, false, none⟩) := by
  constructor <;> rfl

/-! ## Claim C7 — mask round trip through `decomposition`

`decomposition` turns an input mask `M` (True = exclude) into the internal
selector `~M` (mva.py lines 384-391) and, at commit time, stores `~selector`
back into the learning results (lines 602-617); a missing mask becomes the
`slice(None)` selector and nothing is stored for it. -/

/-- The internal selector: `slice(None)` for a missing mask, the inverted
boolean vector otherwise. -/
inductive Sel
  | all
  | keep (l : List Bool)
deriving DecidableEq

/-- mva.py lines 384-391: `navigation_mask = ~navigation_mask` (same for the
signal mask), with `None` replaced by `slice(None)`. -/
def internalSel (mask : Option (List Bool)) : Sel :=
  match mask with
  | none => Sel.all
  | some m => Sel.keep (m.map (fun b => !b))

/-- mva.py lines 602-617: `target.signal_mask = ~signal_mask` (resp.
navigation), stored only when the selector is not a slice.  The `reshape`
to the original axis shape does not change the boolean content and is
embedded as the identity on the flat list. -/
def storedMask (sel : Sel) : Option (List Bool) :=
  match sel with
  | Sel.all => none
  | Sel.keep l => some (l.map (fun b => !b))

/-- Claim C7 (confirmed): a mask passed to `decomposition` is stored back in
`learning_results` with exactly its original boolean content (True =
excluded), not the inverted internal selector; a missing mask stores
nothing. -/
theorem C7_mask_round_trip (m : List Bool) :
    storedMask (internalSel (some m)) = some m
    ∧ storedMask (internalSel none) = none := by
  refine ⟨?_, rfl⟩
  have h : ((fun b => !b) ∘ fun b => !b) = (id : Bool → Bool) :=
    funext fun b => Bool.not_not b
  simp [internalSel, storedMask, List.map_map, h]

/-! ## Claim C3 — gap-statistic selection rule

`estimate_number_of_clusters` with `metric="gap"` (mva.py lines 2275-2330)
computes `gap` and `std_error` arrays over the swept `k_range` and then runs

    best_k = min_k
    for i in range(1, len(k_range)-1):
        if gap[i] >= (gap[i+1] - std_error[i+1]):
            best_k = i + min_k
            break

Note the loop starts at `i = 1`: the first k of the range is never tested,
although the method docstring says "the optimal k is the first k
gap(k) >= gap(k+1)-std_error". -/

/-- The Tibshirani test at index `i`: `gap[i] >= gap[i+1] - std_error[i+1]`. -/
def gapCond (gap stde : List ℚ) (i : ℕ) : Bool :=
  decide (getQ gap (i + 1) - getQ stde (i + 1) ≤ getQ gap i)

/-- The selection loop as written in the source: first hit of `gapCond` for
`i` in Python `range(1, len-1)`, defaulting to the smallest k. -/
def gapSelect (gap stde : List ℚ) (mink : ℕ) : ℕ :=
  match findFirst (gapCond gap stde) (natsFrom 1 (gap.length - 2)) with
  | some i => i + mink
  | none => mink

/-- The selection rule as the claim states it: the smallest k of the range
(equivalently the smallest index `i ≥ 0` for which `gap[i+1]` exists)
satisfying the test, defaulting to the smallest k. -/
def gapSelectClaim (gap stde : List ℚ) (mink : ℕ) : ℕ :=
  match findFirst (gapCond gap stde) (natsFrom 0 (gap.length - 1)) with
  | some i => i + mink
  | none => mink

/-- `np.mean` of a 1-D array. -/
noncomputable def npMean (l : List ℝ) : ℝ := l.sum / l.length

/-- `np.std` of a 1-D array (population standard deviation). -/
noncomputable def npStd (l : List ℝ) : ℝ :=
  Real.sqrt ((l.map (fun x => (x - npMean l) ^ 2)).sum / l.length)

/-- mva.py lines 2322-2323: one entry of
`np.abs(np.sqrt(1.0 + 1.0/n_ref) * reference_std)`, where the
corresponding `reference_std` entry is the `np.std` of the reference log
dispersions collected for that k. -/
noncomputable def stdErrorEntry (n_ref : ℕ) (localInertia : List ℝ) : ℝ :=
  |Real.sqrt (1 + 1 / (n_ref : ℝ)) * npStd localInertia|

/-- Claim C3 (code bug): the claim (and the method's own docstring) say the
selected k is the smallest k of the range satisfying
`gap(k) >= gap(k+1) - stderr(k+1)`.  On `gap = [1, 0, 1/2, 2/5]`,
`stderr = [0,0,0,0]` with the range starting at `min_k = 1`, the rule
selects k = 1 (index 0 passes the test), but the source loop starts at
index 1 and returns k = 3.  The standard-error half of the claim does hold:
the stored entry is exactly `sqrt(1+1/n_ref) * std` (the extra `np.abs` is
the identity on this non-negative product), illustrated here at a concrete
instance. -/
theorem C3_gap_rule_skips_first_k :
    gapSelect [1, 0, 1/2, 2/5] [0, 0, 0, 0] 1 = 3
    ∧ gapSelectClaim [1, 0, 1/2, 2/5] [0, 0, 0, 0] 1 = 1
    ∧ gapSelect [1, 0, 1/2, 2/5] [0, 0, 0, 0] 1
        ≠ gapSelectClaim [1, 0, 1/2, 2/5] [0, 0, 0, 0] 1
    ∧ stdErrorEntry 10 [1, 3] = Real.sqrt (1 + 1/(10:ℝ)) * npStd [1, 3] := by
  have h1 : gapSelect [1, 0, 1/2, 2/5] [0, 0, 0, 0] 1 = 3 := by
    norm_num [gapSelect, findFirst, natsFrom, gapCond, getQ]
  have h2 : gapSelectClaim [1, 0, 1/2, 2/5] [0, 0, 0, 0] 1 = 1 := by
    norm_num [gapSelectClaim, findFirst, natsFrom, gapCond, getQ]
  refine ⟨h1, h2, by rw [h1, h2]; decide, ?_⟩
  exact abs_of_nonneg (mul_nonneg (Real.sqrt_nonneg _) (Real.sqrt_nonneg _))

/-! ## Claim C4 — silhouette-metric candidate list

`estimate_number_of_clusters` with `metric="silhouette"` (mva.py lines
2264-2274) scans the mean silhouette scores with

    best_k = []
    max_value = -1.0
    for u in range(len(silhouette_avg)-1):
        if ((silhouette_avg[u] > silhouette_avg[u-1]) &
                (silhouette_avg[u] > silhouette_avg[u+1])):
            best_k.append(u+min_k)
            max_value = max(silhouette_avg[u], max_value)
    if silhouette_avg[0] > max_value:
        best_k.insert(0, min_k)

For `u = 0` the Python expression `silhouette_avg[u-1]` reads
`silhouette_avg[-1]`, i.e. the LAST score (negative-index wraparound). -/

/-- The peak test of the loop body, including the wraparound of
`silhouette_avg[u-1]` at `u = 0`. -/
def silCond (s : List ℚ) (u : ℕ) : Bool :=
  decide (pyGet s ((u : ℤ) - 1) < pyGet s (u : ℤ)
    ∧ pyGet s ((u : ℤ) + 1) < pyGet s (u : ℤ))

/-- The peak-collecting loop: accumulates the detected candidate list and
the running maximum peak score (initially `-1.0`). -/
def silFold (s : List ℚ) (mink : ℕ) : List ℕ × ℚ :=
  (natsFrom 0 (s.length - 1)).foldl
    (fun acc u =>
      if silCond s u then (acc.1 ++ [u + mink], max (pyGet s (u : ℤ)) acc.2)
      else acc)
    ([], -1)

/-- The full silhouette candidate-list computation of the source. -/
def silhouetteBestK (s : List ℚ) (mink : ℕ) : List ℕ :=
  let r := silFold s mink
  if r.2 < pyGet s 0 then mink :: r.1 else r.1

/-- The candidate list as the claim describes it: strict INTERIOR local
maxima (`score[u-1] < score[u] > score[u+1]` with both neighbours inside
the list), plus the first k prepended when its score exceeds every detected
local maximum. -/
def silClaimList (s : List ℚ) (mink : ℕ) : List ℕ :=
  let peaks := (natsFrom 1 (s.length - 2)).filter
    (fun u => decide (getQ s (u - 1) < getQ s u ∧ getQ s (u + 1) < getQ s u))
  if peaks.all (fun u => decide (getQ s u < getQ s 0)) then
    mink :: peaks.map (· + mink)
  else peaks.map (· + mink)

/-- The candidate list the source actually produces, stated directly:
peaks are the indices `0 ≤ u ≤ len-2` passing the wraparound test
`silCond` (so `u = 0` is compared against the LAST score), and `min_k` is
prepended when `score[0]` strictly exceeds the maximum of the detected
peak scores, taken as `-1` when no peak was detected. -/
def silAmendedSpec (s : List ℚ) (mink : ℕ) : List ℕ :=
  let us := (natsFrom 0 (s.length - 1)).filter (silCond s)
  let mv := us.foldl (fun m u => max (pyGet s (u : ℤ)) m) (-1)
  if mv < pyGet s 0 then mink :: us.map (· + mink) else us.map (· + mink)

theorem silFold_eq_filter (s : List ℚ) (mink : ℕ) (L : List ℕ)
    (acc : List ℕ) (m : ℚ) :
    L.foldl
      (fun acc u =>
        if silCond s u then (acc.1 ++ [u + mink], max (pyGet s (u : ℤ)) acc.2)
        else acc)
      (acc, m)
    = (acc ++ (L.filter (silCond s)).map (· + mink),
       (L.filter (silCond s)).foldl (fun mv u => max (pyGet s (u : ℤ)) mv) m) := by
  induction L generalizing acc m with
  | nil => simp
  | cons a L ih =>
    by_cases h : silCond s a
    · simp [h, ih]
    · simp [h, ih]

/-- Claim C4 counterexample: on scores `[1/2, 1/10, 9/10, 1/5]` with the
range starting at `min_k = 2`, the source returns `[2, 4]` — the first
score counts as a peak because it beats the LAST score via the `u-1 = -1`
wraparound — while the claim's list of interior local maxima with the
exceeds-all-maxima prepend rule is `[4]`. -/
theorem C4_silhouette_counterexample :
    silhouetteBestK [1/2, 1/10, 9/10, 1/5] 2 = [2, 4]
    ∧ silClaimList [1/2, 1/10, 9/10, 1/5] 2 = [4]
    ∧ silhouetteBestK [1/2, 1/10, 9/10, 1/5] 2
        ≠ silClaimList [1/2, 1/10, 9/10, 1/5] 2 := by
  have h1 : silhouetteBestK [1/2, 1/10, 9/10, 1/5] 2 = [2, 4] := by
    norm_num [silhouetteBestK, silFold, natsFrom, silCond, pyGet, max_def]
  have h2 : silClaimList [1/2, 1/10, 9/10, 1/5] 2 = [4] := by
    norm_num [silClaimList, natsFrom, getQ]
  refine ⟨h1, h2, by rw [h1, h2]; decide⟩

/-- Claim C4 (corrected): for every score list the returned candidate list
consists of exactly the k whose score passes the wraparound peak test
(the first score is compared against the last score, and the last score is
never itself a candidate), plus the first k prepended when its score
strictly exceeds the maximum of the detected peak scores (`-1` when no
peak was detected). -/
theorem C4_silhouette_amended (s : List ℚ) (mink : ℕ) :
    silhouetteBestK s mink = silAmendedSpec s mink := by
  unfold silhouetteBestK silAmendedSpec silFold
  rw [silFold_eq_filter]
  simp

/-! ## Claim C5 — cluster-center reconstruction from labels

`MVA._create_cluster_centers_from_labels` (mva.py lines 1844-1941):
per-label member lists and their row sums are collected, then

    idx = np.argsort(clustersizes)[::-1]
    lut = np.zeros_like(idx)
    lut[idx] = np.arange(n_clusters)
    sorted_labels = lut[labels]
    ...
    for i in range(n_clusters):
        cluster_labels[i, navigation_mask] = np.where(sorted_labels == i, 1, 0)
        sorted_cluster_centers[i,:] = cluster_centers[lut[i],:]/clustersizes[lut[i]]

`lut` maps an original label to its rank; its inverse `idx` maps a rank to
the original label holding it.  The center placed at rank `i` therefore
belongs to the original cluster `lut[i]`, not to `idx[i]`, the cluster
actually ranked `i`-th. -/

/-- Positions (into the `labels` vector) of the members of original
cluster `i`: `np.where(labels == i)`. -/
def labelIdxs (labels : List ℕ) (i : ℕ) : List ℕ :=
  (natsFrom 0 labels.length).filter (fun p => labels.getD p 0 == i)

/-- `clustersizes[i]`. -/
def clusterSize (labels : List ℕ) (i : ℕ) : ℕ := (labelIdxs labels i).length

/-- `int(np.amax(labels)) + 1`. -/
def nClusters (labels : List ℕ) : ℕ := labels.foldl max 0 + 1

/-- `cluster_centers[i] = clusterdata[clus_index].sum(axis=0)` for the
raw-data branch (`use_decomposition_for_centers=False`); the
decomposition branch sums `loadings[members,:k] @ factors[:,:k].T` rows
instead, with the same ranking logic downstream. -/
def centerSum (data : List (List ℚ)) (labels : List ℕ) (i : ℕ) : List ℚ :=
  (labelIdxs labels i).foldl
    (fun acc p => List.zipWith (· + ·) acc (data.getD p []))
    (List.replicate (data.headD []).length 0)

/-- Insertion into an ascending key-sorted index list, keeping the earlier
original index first on key ties. -/
def insertAsc (key : ℕ → ℕ) (x : ℕ) : List ℕ → List ℕ
  | [] => [x]
  | y :: ys => if key y < key x then y :: insertAsc key x ys else x :: y :: ys

/-- `np.argsort` (ascending; deterministic model of the tie order, which
numpy leaves to its sort kind — the theorem below uses distinct sizes). -/
def argsortAsc (key : ℕ → ℕ) : List ℕ → List ℕ
  | [] => []
  | a :: l => insertAsc key a (argsortAsc key l)

/-- The whole of `_create_cluster_centers_from_labels` for the raw-data
branch, returning `(sorted_labels, cluster_labels, sorted_cluster_centers)`.
`navKeep` is the already-inverted navigation selector the caller passes in
(`true` = keep, `none` = `slice(None)`), `nTotal` is `self.data.shape[0]`;
the presence matrix `cluster_labels` starts as `np.full(..., np.nan)` —
embedded as `none` entries — and only keep-positions are overwritten. -/
def createClusterCenters (data : List (List ℚ)) (labels : List ℕ)
    (navKeep : Option (List Bool)) (nTotal : ℕ) :
    List ℕ × List (List (Option ℚ)) × List (List ℚ) :=
  let n := nClusters labels
  let idx := (argsortAsc (fun i => clusterSize labels i) (natsFrom 0 n)).reverse
  let lut := (natsFrom 0 n).map (fun l => idx.findIdx (fun x => x == l))
  let sortedLabels := labels.map (fun l => lut.getD l 0)
  let keep := fun p => match navKeep with | none => true | some m => m.getD p false
  let selIndex := fun p => ((natsFrom 0 p).filter keep).length
  let presence := (natsFrom 0 n).map (fun i =>
    (natsFrom 0 nTotal).map (fun p =>
      if keep p then some (if sortedLabels.getD (selIndex p) 0 == i then (1:ℚ) else 0)
      else none))
  let sortedCenters := (natsFrom 0 n).map (fun r =>
    (centerSum data labels (lut.getD r 0)).map
      (fun x => x / (clusterSize labels (lut.getD r 0) : ℚ)))
  (sortedLabels, presence, sortedCenters)

/-- Claim C5 (code bug): on labels `[0,1,1,1,2,2]` over the six one-feature
rows `[0],[1],...,[5]` (cluster populations 1, 3, 2), the relabeling is
correct — the size-3 cluster gets label 0 (first conjunct) and its
presence row marks exactly its members (fourth conjunct) — but the center
stored at rank 0 is `[9/2]`, the mean of the SIZE-2 cluster
(`cluster_centers[lut[0]] = cluster_centers[2]`), not `[2]`, the mean of
the size-3 cluster ranked 0 as the claim states: the code indexes the raw
centers with `lut` where the inverse permutation `idx` is needed, which
differs whenever the ranking permutation is not an involution. -/
theorem C5_center_rank_mismatch :
    (createClusterCenters [[0],[1],[2],[3],[4],[5]] [0,1,1,1,2,2] none 6).1
      = [2, 0, 0, 0, 1, 1]
    ∧ ((createClusterCenters [[0],[1],[2],[3],[4],[5]] [0,1,1,1,2,2] none 6).2.2).getD 0 []
      = [9/2]
    ∧ (centerSum [[0],[1],[2],[3],[4],[5]] [0,1,1,1,2,2] 1).map
        (fun x => x / (clusterSize [0,1,1,1,2,2] 1 : ℚ)) = [2]
    ∧ ([9/2] : List ℚ) ≠ [2]
    ∧ ((createClusterCenters [[0],[1],[2],[3],[4],[5]] [0,1,1,1,2,2] none 6).2.1).getD 0 []
      = [some 0, some 1, some 1, some 1, some 0, some 0] := by
  refine ⟨?_, ?_, ?_, by norm_num, ?_⟩ <;>
    norm_num [createClusterCenters, nClusters, clusterSize, labelIdxs, centerSum,
      natsFrom, argsortAsc, insertAsc, List.findIdx, List.findIdx.go,
      cond_eq_if, beq_iff_eq]

/-! ## Claim C6 — explained-variance ratio and cropping

mva.py lines 534-541 derive the ratio once, before any cropping:

    explained_variance_ratio = explained_variance / explained_variance.sum()

and `LearningResults.crop_decomposition_dimension` (lines 2582-2605)
truncates `loadings`, `explained_variance` and `factors` to `n` components
without touching `explained_variance_ratio`. -/

/-- The slice of `LearningResults` relevant to decomposition results. -/
structure LearningResultsM where
  factors : List (List ℚ)
  loadings : List (List ℚ)
  explained_variance : Option (List ℚ)
  explained_variance_ratio : Option (List ℚ)
deriving DecidableEq

/-- `explained_variance / explained_variance.sum()`. -/
def computeEVRatio (ev : List ℚ) : List ℚ := ev.map (fun v => v / ev.sum)

/-- `LearningResults.crop_decomposition_dimension(n)`: `loadings[:, :n]`,
`explained_variance[:n]` (when present), `factors[:, :n]`; the ratio is
left alone. -/
def crop_decomposition_dimension (lr : LearningResultsM) (n : ℕ) :
    LearningResultsM :=
  { lr with
    loadings := lr.loadings.map (fun r => r.take n)
    explained_variance := lr.explained_variance.map (fun l => l.take n)
    factors := lr.factors.map (fun r => r.take n) }

theorem sum_map_div (l : List ℚ) (s : ℚ) :
    (l.map (fun v => v / s)).sum = l.sum / s := by
  induction l with
  | nil => simp
  | cons a l ih => simp [ih, add_div]

/-- The property claim C6 asserts of a learning result whose ratio was
derived by the source from `ev`: the ratio sums to 1, and cropping to `n`
components truncates factors, loadings and explained variance to (at most)
`n` columns while leaving the ratio untouched. -/
def C6Concl (ev : List ℚ) (lr : LearningResultsM) (n : ℕ) : Prop :=
  (computeEVRatio ev).sum = 1
  ∧ (crop_decomposition_dimension lr n).explained_variance_ratio
      = lr.explained_variance_ratio
  ∧ (crop_decomposition_dimension lr n).factors
      = lr.factors.map (fun r => r.take n)
  ∧ (crop_decomposition_dimension lr n).loadings
      = lr.loadings.map (fun r => r.take n)
  ∧ (crop_decomposition_dimension lr n).explained_variance
      = lr.explained_variance.map (fun l => l.take n)
  ∧ (crop_decomposition_dimension lr n).factors.map List.length
      = lr.factors.map (fun r => min n r.length)
  ∧ (crop_decomposition_dimension lr n).loadings.map List.length
      = lr.loadings.map (fun r => min n r.length)

/-- Claim C6 (confirmed): whenever the explained-variance array `ev` has a
nonzero sum (numpy would produce nan entries otherwise), the ratio the
source stores sums to exactly 1, and a subsequent
`crop_decomposition_dimension(n)` truncates `factors`, `loadings` and
`explained_variance` to `n` components while keeping
`explained_variance_ratio` frozen. -/
theorem C6_ratio_frozen_after_crop (ev : List ℚ) (lr : LearningResultsM)
    (n : ℕ) (h : ev.sum ≠ 0) : C6Concl ev lr n := by
  refine ⟨?_, rfl, rfl, rfl, rfl, ?_, ?_⟩
  · rw [computeEVRatio, sum_map_div, div_self h]
  · simp [crop_decomposition_dimension, List.map_map, Function.comp,
      List.length_take]
  · simp [crop_decomposition_dimension, List.map_map, Function.comp,
      List.length_take]

/-- Witness for C6 at `ev = [3,1]`, a 1-row learning record, `n = 1`. -/
theorem C6_witness :
    ([3, 1] : List ℚ).sum ≠ 0
    ∧ C6Concl [3, 1] ⟨[[1, 2]], [[5, 6]], some [3, 1], some [3/4, 1/4]⟩ 1 := by
  refine ⟨by norm_num, ?_⟩
  exact C6_ratio_frozen_after_crop [3, 1]
    ⟨[[1, 2]], [[5, 6]], some [3, 1], some [3/4, 1/4]⟩ 1 (by norm_num)

/-! ## Claim C8 — `_unmix_components` and singular unmixing matrices

mva.py lines 1116-1142: `w_inv = np.linalg.inv(w)`; a `LinAlgError` whose
message contains "Singular matrix" is caught, a warning is emitted and
`np.linalg.pinv(w)` is substituted; ANY OTHER `LinAlgError` — in
particular the "Last 2 dimensions of the array must be square" error raised
for a non-square `w` — is re-raised.  Then, with `n = len(w)`,
`bss_factors`/`bss_loadings` are built from `factors[:, :n] @ w.T` and
`loadings[:, :n] @ w_inv` (swapped when `on_loadings`). -/

/-- Dot product of two rows (the use sites guarantee equal lengths, where
numpy would otherwise raise). -/
def dotL (a b : List ℚ) : ℚ := (List.zipWith (· * ·) a b).sum

/-- numpy `m.T`, by index (equals the matrix transpose on the rectangular
arrays numpy accepts). -/
def transposeL (m : List (List ℚ)) : List (List ℚ) :=
  (natsFrom 0 (m.headD []).length).map (fun j => m.map (fun r => r.getD j 0))

/-- Matrix product `a @ b`. -/
def matMul (a b : List (List ℚ)) : List (List ℚ) :=
  a.map (fun r => (transposeL b).map (fun c => dotL r c))

/-- `m[:, :n]`. -/
def takeCols (n : ℕ) (m : List (List ℚ)) : List (List ℚ) :=
  m.map (fun r => r.take n)

/-- `l` with index `j` removed (row/column deletion for minors). -/
def dropIdx (j : ℕ) (l : List α) : List α := l.take j ++ l.drop (j + 1)

/-- Determinant by Laplace expansion along the first row. -/
def npDet : List (List ℚ) → ℚ
  | [] => 1
  | row :: rest =>
    ((natsFrom 0 row.length).map
      (fun j => (-1 : ℚ) ^ j * row.getD j 0 * npDet (rest.map (dropIdx j)))).sum
termination_by m => m.length
decreasing_by simp [List.length_map]

/-- The inverse of a nonsingular square matrix via cofactors
(`adjugate / det`); always an `m.length × m.length` array by construction. -/
def npInvMat (m : List (List ℚ)) : List (List ℚ) :=
  let n := m.length
  let d := npDet m
  (natsFrom 0 n).map (fun i => (natsFrom 0 n).map (fun j =>
    (-1 : ℚ) ^ (i + j) * npDet ((dropIdx j m).map (dropIdx i)) / d))

/-- The two `np.linalg.LinAlgError` conditions `np.linalg.inv` can raise
here, distinguished the way the source's message test
`"Singular matrix" in str(e)` distinguishes them. -/
inductive NpLinAlgErr
  | singularMatrix
  | notSquare
deriving DecidableEq

/-- All rows as long as the matrix is tall: numpy's squareness condition. -/
def isSquareM (m : List (List ℚ)) : Bool :=
  m.all (fun r => r.length == m.length)

/-- `np.linalg.inv`: raises for non-square input, raises "Singular matrix"
for zero determinant, otherwise returns the inverse. -/
def npLinalgInv (m : List (List ℚ)) : Except NpLinAlgErr (List (List ℚ)) :=
  if isSquareM m then
    if npDet m = 0 then Except.error NpLinAlgErr.singularMatrix
    else Except.ok (npInvMat m)
  else Except.error NpLinAlgErr.notSquare

/-- `MVA._unmix_components` over the learning results
`(factors, loadings, unmixing_matrix w, on_loadings)`: returns
`(bss_factors, bss_loadings, w_inv, warned)` where `warned` records the
non-fatal singular-matrix warning, or the re-raised error.
`np.linalg.pinv` is an external numeric kernel and enters as the oracle
`pinv`. -/
def unmix_components (factors loadings w : List (List ℚ)) (on_loadings : Bool)
    (pinv : List (List ℚ) → List (List ℚ)) :
    Except NpLinAlgErr (List (List ℚ) × List (List ℚ) × List (List ℚ) × Bool) :=
  let n := w.length
  let mk := fun (winv : List (List ℚ)) (warned : Bool) =>
    if on_loadings then
      (matMul (takeCols n factors) winv,
       matMul (takeCols n loadings) (transposeL w), winv, warned)
    else
      (matMul (takeCols n factors) (transposeL w),
       matMul (takeCols n loadings) winv, winv, warned)
  match npLinalgInv w with
  | Except.ok winv => Except.ok (mk winv false)
  | Except.error NpLinAlgErr.singularMatrix => Except.ok (mk (pinv w) true)
  | Except.error e => Except.error e

theorem headD_length {l : List (List ℚ)} {n : ℕ} (h1 : l.length = n)
    (h2 : ∀ r ∈ l, r.length = n) : (l.headD []).length = n := by
  cases l with
  | nil => simpa using h1
  | cons r t => exact h2 r (by simp)

theorem transposeL_length (m : List (List ℚ)) :
    (transposeL m).length = (m.headD []).length := by
  simp [transposeL, natsFrom_length]

theorem transposeL_row_length {m : List (List ℚ)} {r : List ℚ}
    (h : r ∈ transposeL m) : r.length = m.length := by
  simp only [transposeL, List.mem_map] at h
  obtain ⟨j, -, rfl⟩ := h
  simp

theorem matMul_length (a b : List (List ℚ)) : (matMul a b).length = a.length := by
  simp [matMul]

theorem matMul_row_length {a b : List (List ℚ)} {r : List ℚ}
    (h : r ∈ matMul a b) : r.length = (b.headD []).length := by
  simp only [matMul, List.mem_map] at h
  obtain ⟨x, -, rfl⟩ := h
  simp [transposeL_length, natsFrom_length]

theorem npInvMat_length (m : List (List ℚ)) :
    (npInvMat m).length = m.length := by
  simp [npInvMat, natsFrom_length]

theorem npInvMat_row_length {m : List (List ℚ)} {r : List ℚ}
    (h : r ∈ npInvMat m) : r.length = m.length := by
  simp only [npInvMat, List.mem_map] at h
  obtain ⟨i, -, rfl⟩ := h
  simp [natsFrom_length]

theorem isSquareM_rows {w : List (List ℚ)} (h : isSquareM w = true) :
    ∀ r ∈ w, r.length = w.length := by
  simpa [isSquareM, List.all_eq_true] using h

/-- Claim C8 counterexample: the claim quantifies over every unmixing
matrix (the spec's data model explicitly allows `k × k'` matrices) and
asserts `_unmix_components` never raises; on the non-square
`w = [[1, 0]]` numpy's `inv` raises a `LinAlgError` whose message is not
"Singular matrix", so the source re-raises instead of falling back to the
pseudo-inverse. -/
theorem C8_nonsquare_raises :
    unmix_components [[1], [2]] [[3], [4]] [[1, 0]] false (fun _ => [[0], [0]])
      = Except.error NpLinAlgErr.notSquare := by
  rfl

/-- The amended claim C8 asserts of `_unmix_components`: it succeeds, the
row counts of `bss_factors`/`bss_loadings` match `factors`/`loadings`,
every output row has exactly `n = len(w)` entries, and the singular case
is exactly the warned pseudo-inverse fallback. -/
def C8Concl (factors loadings w : List (List ℚ)) (on_loadings : Bool)
    (pinv : List (List ℚ) → List (List ℚ)) : Prop :=
  ∃ bf bl winv warned,
    unmix_components factors loadings w on_loadings pinv
      = Except.ok (bf, bl, winv, warned)
    ∧ bf.length = factors.length
    ∧ bl.length = loadings.length
    ∧ (∀ r ∈ bf, r.length = w.length)
    ∧ (∀ r ∈ bl, r.length = w.length)
    ∧ (npDet w = 0 → warned = true ∧ winv = pinv w)
    ∧ (npDet w ≠ 0 → warned = false)

/-- Claim C8 (corrected, restricted to square unmixing matrices): for every
SQUARE unmixing matrix `w` — including singular ones — `_unmix_components`
does not raise; on a singular `w` it warns and substitutes the
pseudo-inverse; and the resulting `bss_factors`/`bss_loadings` keep the row
counts of `factors`/`loadings` and have exactly `len(w)` columns.  The
hypotheses on the column counts of `factors`/`loadings` and on the oracle
`pinv` state the shapes under which the numpy products are defined. -/
theorem C8_unmix_square_ok (factors loadings w : List (List ℚ))
    (on_loadings : Bool) (pinv : List (List ℚ) → List (List ℚ))
    (hsq : isSquareM w = true)
    (hf : ∀ r ∈ factors, w.length ≤ r.length)
    (hl : ∀ r ∈ loadings, w.length ≤ r.length)
    (hp1 : (pinv w).length = w.length)
    (hp2 : ∀ r ∈ pinv w, r.length = w.length) :
    C8Concl factors loadings w on_loadings pinv := by
  have hwrow : ∀ r ∈ w, r.length = w.length := isSquareM_rows hsq
  have hth : ((transposeL w).headD []).length = w.length :=
    headD_length (by rw [transposeL_length, headD_length rfl hwrow])
      (fun r hr => transposeL_row_length hr)
  have hih : ((npInvMat w).headD []).length = w.length :=
    headD_length (npInvMat_length w) (fun r hr => npInvMat_row_length hr)
  have hph : ((pinv w).headD []).length = w.length :=
    headD_length hp1 hp2
  by_cases hdet : npDet w = 0
  · cases on_loadings with
    | false =>
      refine ⟨matMul (takeCols w.length factors) (transposeL w),
        matMul (takeCols w.length loadings) (pinv w), pinv w, true,
        ?_, ?_, ?_, ?_, ?_, fun _ => ⟨rfl, rfl⟩, fun h => absurd hdet h⟩
      · simp only [unmix_components, npLinalgInv, hsq, if_pos hdet, if_true]
        all_goals rfl
      · simp [matMul_length, takeCols]
      · simp [matMul_length, takeCols]
      · intro r hr
        rw [matMul_row_length hr]; exact hth
      · intro r hr
        rw [matMul_row_length hr]; exact hph
    | true =>
      refine ⟨matMul (takeCols w.length factors) (pinv w),
        matMul (takeCols w.length loadings) (transposeL w), pinv w, true,
        ?_, ?_, ?_, ?_, ?_, fun _ => ⟨rfl, rfl⟩, fun h => absurd hdet h⟩
      · simp only [unmix_components, npLinalgInv, hsq, if_pos hdet, if_true]
        all_goals rfl
      · simp [matMul_length, takeCols]
      · simp [matMul_length, takeCols]
      · intro r hr
        rw [matMul_row_length hr]; exact hph
      · intro r hr
        rw [matMul_row_length hr]; exact hth
  · cases on_loadings with
    | false =>
      refine ⟨matMul (takeCols w.length factors) (transposeL w),
        matMul (takeCols w.length loadings) (npInvMat w), npInvMat w, false,
        ?_, ?_, ?_, ?_, ?_, fun h => absurd h hdet, fun _ => rfl⟩
      · simp only [unmix_components, npLinalgInv, hsq, if_neg hdet, if_true]
        all_goals rfl
      · simp [matMul_length, takeCols]
      · simp [matMul_length, takeCols]
      · intro r hr
        rw [matMul_row_length hr]; exact hth
      · intro r hr
        rw [matMul_row_length hr]; exact hih
    | true =>
      refine ⟨matMul (takeCols w.length factors) (npInvMat w),
        matMul (takeCols w.length loadings) (transposeL w), npInvMat w, false,
        ?_, ?_, ?_, ?_, ?_, fun h => absurd h hdet, fun _ => rfl⟩
      · simp only [unmix_components, npLinalgInv, hsq, if_neg hdet, if_true]
        all_goals rfl
      · simp [matMul_length, takeCols]
      · simp [matMul_length, takeCols]
      · intro r hr
        rw [matMul_row_length hr]; exact hih
      · intro r hr
        rw [matMul_row_length hr]; exact hth

/-- Witness for C8 at the singular square matrix `[[1,1],[1,1]]`. -/
theorem C8_unmix_witness :
    isSquareM [[1, 1], [1, 1]] = true
    ∧ C8Concl [[1, 2], [3, 4], [5, 6]] [[7, 8]] [[1, 1], [1, 1]] false
        (fun _ => [[0, 0], [0, 0]]) := by
  refine ⟨by decide, ?_⟩
  exact C8_unmix_square_ok [[1, 2], [3, 4], [5, 6]] [[7, 8]] [[1, 1], [1, 1]]
    false (fun _ => [[0, 0], [0, 0]]) (by decide) (by decide) (by decide)
    (by decide) (by decide)

/-! ## Claim C2 — `normalize_poissonian_noise`

mva.py lines 1575-1628.  After building the inverted selectors and checking
non-negativity, the source executes

    dc[:, signal_mask][navigation_mask, :] /= self._root_aG * self._root_bH
    dc[:, signal_mask][navigation_mask, :] = np.nan_to_num(...)

When `signal_mask` is the `slice(None)` sentinel (no signal mask given),
`dc[:, signal_mask]` is a view and the in-place division reaches the stored
data.  When a signal mask array is given, `dc[:, signal_mask]` is an
advanced-indexing COPY: the division and the write-back mutate a temporary
that is immediately discarded, and the stored data is left unchanged. -/

/-- The internal keep-selector built from a mask (True = exclude on input,
`none` = `slice(None)` keeping everything). -/
def selKeep (mask : Option (List Bool)) (i : ℕ) : Bool :=
  match mask with
  | none => true
  | some m => !(m.getD i false)

/-- Sum of the signal-selected entries of one row (one entry of `aG`). -/
def rowSumSel (sigM : Option (List Bool)) (row : List ℚ) : ℚ :=
  ((natsFrom 0 row.length).filter (fun j => selKeep sigM j)).foldl
    (fun a j => a + getQ row j) 0

/-- `aG[i] = dc[:, signal_mask][navigation_mask, :].sum(1)` evaluated at
row `i` (only ever read at navigation-selected rows). -/
def aG (data : List (List ℚ)) (sigM : Option (List Bool)) (i : ℕ) : ℚ :=
  rowSumSel sigM (data.getD i [])

/-- `bH[j] = dc[:, signal_mask][navigation_mask, :].sum(0)` at column `j`. -/
def bH (data : List (List ℚ)) (navM : Option (List Bool)) (j : ℕ) : ℚ :=
  ((natsFrom 0 data.length).filter (fun i => selKeep navM i)).foldl
    (fun a i => a + getQ (data.getD i []) j) 0

/-- The guard `dc[:, signal_mask][navigation_mask, :].min() >= 0` (the
source raises `ValueError` otherwise). -/
def allSelectedNonneg (data : List (List ℚ)) (navM sigM : Option (List Bool)) : Bool :=
  (natsFrom 0 data.length).all (fun i =>
    !selKeep navM i ||
      (natsFrom 0 (data.getD i []).length).all (fun j =>
        !selKeep sigM j || decide (0 ≤ getQ (data.getD i []) j)))

/-- The data actually stored after `normalize_poissonian_noise` returns:
with a signal mask present, the chained advanced indexing divides a
temporary copy and the stored matrix is unchanged; with no signal mask the
navigation-selected rows are divided entry-wise by
`sqrt(aG[i]) * sqrt(bH[j])` (Lean's `x / 0 = 0` matches the
`np.nan_to_num` replacement of the only degenerate case, `0/0`, reachable
under the non-negativity guard). -/
noncomputable def npnStored (data : List (List ℚ)) (navM sigM : Option (List Bool)) :
    List (List ℝ) :=
  match sigM with
  | some _ => data.map (fun row => row.map (fun x => (x : ℝ)))
  | none =>
    (natsFrom 0 data.length).map (fun i =>
      let row := data.getD i []
      if selKeep navM i then
        (natsFrom 0 row.length).map (fun j =>
          (getQ row j : ℝ) /
            (Real.sqrt ((aG data none i : ℚ) : ℝ) * Real.sqrt ((bH data navM j : ℚ) : ℝ)))
      else row.map (fun x => (x : ℝ)))

/-- `normalize_poissonian_noise` with its `ValueError` guard. -/
noncomputable def normalize_poissonian_noise (data : List (List ℚ))
    (navM sigM : Option (List Bool)) : Except Unit (List (List ℝ)) :=
  if allSelectedNonneg data navM sigM then Except.ok (npnStored data navM sigM)
  else Except.error ()

/-- What claim C2 says the stored data is: every selected entry (both masks
keeping it) divided by `sqrt(row-sum) * sqrt(column-sum)` of the selected
submatrix, unselected entries unchanged. -/
noncomputable def npnClaim (data : List (List ℚ)) (navM sigM : Option (List Bool)) :
    List (List ℝ) :=
  (natsFrom 0 data.length).map (fun i =>
    let row := data.getD i []
    (natsFrom 0 row.length).map (fun j =>
      if selKeep navM i && selKeep sigM j then
        (getQ row j : ℝ) /
          (Real.sqrt ((aG data sigM i : ℚ) : ℝ) * Real.sqrt ((bH data navM j : ℚ) : ℝ))
      else (getQ row j : ℝ)))

/-- Entry access in a real matrix. -/
def getEntryR (m : List (List ℝ)) (i j : ℕ) : ℝ := (m.getD i []).getD j 0

/-- Claim C2 (code bug): on `data = [[1,1],[3,1]]` with
`signal_mask = [False, True]` and no navigation mask — a non-negative
input that passes the guard (first conjunct) — the claim prescribes entry
(0,0) to become `1 / (sqrt(1) * sqrt(4)) = 1/2` (third conjunct), but the
stored data is completely unchanged because the in-place division goes
through an advanced-indexing copy (second conjunct), so stored and
prescribed matrices differ (fourth conjunct).  With no signal mask the
selector is a slice, the division reaches the stored buffer, and the code
agrees with the claim exactly (fifth conjunct). -/
theorem C2_signal_mask_division_lost :
    allSelectedNonneg [[1, 1], [3, 1]] none (some [false, true]) = true
    ∧ npnStored [[1, 1], [3, 1]] none (some [false, true]) = [[(1:ℝ), 1], [3, 1]]
    ∧ getEntryR (npnClaim [[1, 1], [3, 1]] none (some [false, true])) 0 0 = 1/2
    ∧ npnStored [[1, 1], [3, 1]] none (some [false, true])
        ≠ npnClaim [[1, 1], [3, 1]] none (some [false, true])
    ∧ npnStored [[1, 1], [3, 1]] none none = npnClaim [[1, 1], [3, 1]] none none := by
  have hg : allSelectedNonneg [[1, 1], [3, 1]] none (some [false, true]) = true := by
    norm_num [allSelectedNonneg, natsFrom, selKeep, getQ]
  have hs : npnStored [[1, 1], [3, 1]] none (some [false, true])
      = [[(1:ℝ), 1], [3, 1]] := by
    simp [npnStored]
  have hc : getEntryR (npnClaim [[1, 1], [3, 1]] none (some [false, true])) 0 0
      = 1/2 := by
    have haG : aG [[1, 1], [3, 1]] (some [false, true]) 0 = 1 := by
      norm_num [aG, rowSumSel, natsFrom, selKeep, getQ]
    have hbH : bH [[1, 1], [3, 1]] none 0 = 4 := by
      norm_num [bH, natsFrom, selKeep, getQ]
    have h4 : Real.sqrt (4:ℝ) = 2 := by
      rw [show (4:ℝ) = (2:ℝ)^2 by norm_num, Real.sqrt_sq (by norm_num : (0:ℝ) ≤ 2)]
    simp only [npnClaim, natsFrom, getEntryR, List.map, List.getD, getQ, selKeep]
    norm_num [haG, hbH, h4]
  refine ⟨hg, hs, hc, ?_, rfl⟩
  intro h
  have h00 : getEntryR (npnStored [[1, 1], [3, 1]] none (some [false, true])) 0 0
      = getEntryR (npnClaim [[1, 1], [3, 1]] none (some [false, true])) 0 0 := by
    rw [h]
  rw [hs, hc] at h00
  norm_num [getEntryR] at h00

/-! ## Claim C9 — `estimate_elbow_position`

mva.py lines 2385-2421.  `max_points = min(max_points, len-1)`, the curve
is clipped from below at `1e-30`, and the distances from the line through
`(0, y1)` and `(max_points, y2)` are maximised over the first `max_points`
indices.  The source sets `y1 = np.log(curve_values_adj[0])`
UNCONDITIONALLY, while `y2` and `ys` honour the `log` flag — so with
`log=False` the line starts at the logarithm of the first value while
everything else is in raw-value space. -/

/-- `np.clip(curve_values, 1e-30, None)`. -/
def npClip (c : List ℚ) : List ℚ := c.map (fun x => max x (1 / 10 ^ 30))

/-- Linear scan tracking the best value and its first index (`np.argmax`
keeps the first occurrence of the maximum). -/
noncomputable def argmaxAux : List ℝ → ℕ → ℝ → ℕ → ℕ
  | [], bi, _, _ => bi
  | x :: xs, bi, bv, i =>
    if bv < x then argmaxAux xs i x (i + 1) else argmaxAux xs bi bv (i + 1)

/-- `np.argmax` over a 1-D array (0 on the empty array). -/
noncomputable def npArgmax (l : List ℝ) : ℕ :=
  match l with
  | [] => 0
  | x :: xs => argmaxAux xs 0 x 1

/-- `MVA.estimate_elbow_position` on an explicit curve: note
`y1 = Real.log ...` regardless of `lg`, exactly as in the source.  The
per-index expression is `numer/denom` with `np.nan_to_num` embedded by
Lean's `0/0 = 0` (the denominator vanishes only when `mp = 0 ∧ y2 = y1`,
where numpy's `nan_to_num(0/0)` is also 0). -/
noncomputable def estimate_elbow_position (curve : List ℚ) (lg : Bool)
    (max_points : ℕ) : ℕ :=
  let mp := min max_points (curve.length - 1)
  let adj := npClip curve
  let y1 : ℝ := Real.log ((getQ adj 0 : ℚ) : ℝ)
  let y2 : ℝ := if lg then Real.log ((getQ adj mp : ℚ) : ℝ) else ((getQ adj mp : ℚ) : ℝ)
  let dist := (natsFrom 0 mp).map (fun u =>
    let yu : ℝ := if lg then Real.log ((getQ adj u : ℚ) : ℝ) else ((getQ adj u : ℚ) : ℝ)
    |((mp : ℝ) - 0) * (y1 - yu) - (0 - (u : ℝ)) * (y2 - y1)| /
      Real.sqrt (((mp : ℝ) - 0) ^ 2 + (y2 - y1) ^ 2))
  npArgmax dist

/-- The elbow position as claim C9 describes it: identical except that the
first endpoint `y1` also honours the `log` flag (raw value when
`log=False`). -/
noncomputable def elbowClaim (curve : List ℚ) (lg : Bool) (max_points : ℕ) : ℕ :=
  let mp := min max_points (curve.length - 1)
  let adj := npClip curve
  let y1 : ℝ := if lg then Real.log ((getQ adj 0 : ℚ) : ℝ) else ((getQ adj 0 : ℚ) : ℝ)
  let y2 : ℝ := if lg then Real.log ((getQ adj mp : ℚ) : ℝ) else ((getQ adj mp : ℚ) : ℝ)
  let dist := (natsFrom 0 mp).map (fun u =>
    let yu : ℝ := if lg then Real.log ((getQ adj u : ℚ) : ℝ) else ((getQ adj u : ℚ) : ℝ)
    |((mp : ℝ) - 0) * (y1 - yu) - (0 - (u : ℝ)) * (y2 - y1)| /
      Real.sqrt (((mp : ℝ) - 0) ^ 2 + (y2 - y1) ^ 2))
  npArgmax dist

/-- Claim C9 (code bug): in raw-value mode the claim puts the line through
the first considered point, but the source takes `y1 = log(curve[0])`
unconditionally.  On the curve `[1, 1/10, 1/100]` with `log=False`
(`max_points` large, so 2 distances are compared): the source uses
`y1 = log 1 = 0` and returns index 0, while the claimed raw-space
computation (`y1 = 1`) returns index 1.  In `log=True` mode the two
definitions coincide syntactically (last conjunct). -/
theorem C9_elbow_raw_mode_logs_y1 :
    estimate_elbow_position [1, 1/10, 1/100] false 20 = 0
    ∧ elbowClaim [1, 1/10, 1/100] false 20 = 1
    ∧ estimate_elbow_position [1, 1/10, 1/100] false 20
        ≠ elbowClaim [1, 1/10, 1/100] false 20
    ∧ ∀ (c : List ℚ) (mp : ℕ), estimate_elbow_position c true mp = elbowClaim c true mp := by
  have h1 : estimate_elbow_position [1, 1/10, 1/100] false 20 = 0 := by
    simp only [estimate_elbow_position, npClip, natsFrom, getQ, List.getD, List.map]
    norm_num [npArgmax, argmaxAux, Real.log_one]
    rw [abs_of_nonneg (by norm_num : (0:ℝ) ≤ 19 / 100)]
    gcongr
    norm_num
  have h2 : elbowClaim [1, 1/10, 1/100] false 20 = 1 := by
    simp only [elbowClaim, npClip, natsFrom, getQ, List.getD, List.map]
    norm_num [npArgmax, argmaxAux]
  exact ⟨h1, h2, by rw [h1, h2]; decide, fun c mp => rfl⟩

/-! ## Claim C10 — component normalization preserves the reconstruction

mva.py lines 89-93 and 1000-1025: `_normalize_components` computes
`coeff = function(target, axis=0)`, divides the target columns by it and
multiplies the other array's columns by it;
`normalize_decomposition_components` picks `(factors, loadings)` or
`(loadings, factors)` as `(target, other)`. -/

/-- The per-column coefficient `function(target, axis=0)[j]`. -/
def coeffOf {r k : ℕ} (f : (Fin r → ℚ) → ℚ) (target : Fin r → Fin k → ℚ)
    (j : Fin k) : ℚ :=
  f (fun i => target i j)

/-- `_normalize_components(target, other, function)`: returns the mutated
`(target, other)` pair. -/
def normalizeComponents {r1 r2 k : ℕ} (f : (Fin r1 → ℚ) → ℚ)
    (target : Fin r1 → Fin k → ℚ) (other : Fin r2 → Fin k → ℚ) :
    (Fin r1 → Fin k → ℚ) × (Fin r2 → Fin k → ℚ) :=
  (fun i j => target i j / coeffOf f target j,
   fun i j => other i j * coeffOf f target j)

/-- `normalize_decomposition_components`: returns the new
`(factors, loadings)` pair; `targetFactors` selects the `target="factors"`
branch. -/
def normalize_decomposition_components {fr lr k : ℕ}
    (factors : Fin fr → Fin k → ℚ) (loadings : Fin lr → Fin k → ℚ)
    (targetFactors : Bool) (f : (n : ℕ) → (Fin n → ℚ) → ℚ) :
    (Fin fr → Fin k → ℚ) × (Fin lr → Fin k → ℚ) :=
  if targetFactors then
    ((normalizeComponents (f fr) factors loadings).1,
     (normalizeComponents (f fr) factors loadings).2)
  else
    ((normalizeComponents (f lr) loadings factors).2,
     (normalizeComponents (f lr) loadings factors).1)

/-- `loadings @ factors.T` at entry `(i, j)` — the reconstruction product. -/
def reconstruction {lr fr k : ℕ} (loadings : Fin lr → Fin k → ℚ)
    (factors : Fin fr → Fin k → ℚ) : Fin lr → Fin fr → ℚ :=
  fun i j => ∑ c, loadings i c * factors j c

/-- Claim C10's assertion: for either normalization target the
reconstruction product is unchanged entry-wise. -/
def C10Concl {fr lr k : ℕ} (factors : Fin fr → Fin k → ℚ)
    (loadings : Fin lr → Fin k → ℚ) (f : (n : ℕ) → (Fin n → ℚ) → ℚ) : Prop :=
  ∀ (b : Bool) (i : Fin lr) (j : Fin fr),
    reconstruction (normalize_decomposition_components factors loadings b f).2
      (normalize_decomposition_components factors loadings b f).1 i j
      = reconstruction loadings factors i j

/-- Claim C10 (confirmed): whenever every per-column coefficient of the
chosen target is nonzero, `normalize_decomposition_components` leaves
`loadings @ factors.T` unchanged — each column of the target is divided by
its coefficient and the matching column of the other array multiplied by
the same coefficient, so each rank-one summand is invariant. -/
theorem C10_reconstruction_invariant {fr lr k : ℕ}
    (factors : Fin fr → Fin k → ℚ) (loadings : Fin lr → Fin k → ℚ)
    (f : (n : ℕ) → (Fin n → ℚ) → ℚ)
    (hf : ∀ j, coeffOf (f fr) factors j ≠ 0)
    (hl : ∀ j, coeffOf (f lr) loadings j ≠ 0) :
    C10Concl factors loadings f := by
  intro b i j
  cases b with
  | false =>
    simp only [normalize_decomposition_components, Bool.false_eq_true, if_false,
      reconstruction, normalizeComponents]
    refine Finset.sum_congr rfl fun c _ => ?_
    have h := hl c
    field_simp
    ring
  | true =>
    simp only [normalize_decomposition_components, if_true, reconstruction,
      normalizeComponents]
    refine Finset.sum_congr rfl fun c _ => ?_
    have h := hf c
    field_simp
    ring

/-- Concrete factors matrix for the C10 witness. -/
def fMat : Fin 2 → Fin 2 → ℚ := ![![1, 2], ![3, 4]]

/-- Concrete loadings matrix for the C10 witness. -/
def lMat : Fin 2 → Fin 2 → ℚ := ![![1, 0], ![0, 1]]

/-- `np.sum` as the default normalization function. -/
def sumFun : (n : ℕ) → (Fin n → ℚ) → ℚ := fun _ col => ∑ i, col i

/-- Witness for C10 at concrete 2×2 matrices with the default `np.sum`
normalization function. -/
theorem C10_witness :
    (∀ j, coeffOf (sumFun 2) fMat j ≠ 0) ∧ (∀ j, coeffOf (sumFun 2) lMat j ≠ 0)
    ∧ C10Concl fMat lMat sumFun := by
  have hf : ∀ j, coeffOf (sumFun 2) fMat j ≠ 0 := by
    intro j
    fin_cases j <;> norm_num [coeffOf, sumFun, fMat, Fin.sum_univ_two]
  have hl : ∀ j, coeffOf (sumFun 2) lMat j ≠ 0 := by
    intro j
    fin_cases j <;> norm_num [coeffOf, sumFun, lMat, Fin.sum_univ_two]
  exact ⟨hf, hl, C10_reconstruction_invariant fMat lMat sumFun hf hl⟩

/-- Witness instantiating the amended claim C4 on a concrete score list. -/
theorem C4_silhouette_amended_witness :
    silhouetteBestK [1/2, 1/10, 9/10, 1/5] 3
      = silAmendedSpec [1/2, 1/10, 9/10, 1/5] 3 :=
  C4_silhouette_amended [1/2, 1/10, 9/10, 1/5] 3

/-- Witness instantiating claim C7 on a concrete mask. -/
theorem C7_mask_round_trip_witness :
    storedMask (internalSel (some [true, false])) = some [true, false]
    ∧ storedMask (internalSel none) = none :=
  C7_mask_round_trip [true, false]
